import Mathlib

/-!
Verification development for the `tsf` string-formatting engine bundled with
this repository (`tsf.h` and the unnamed implementation file).

The embedding models the `_WIN32` build of the library (the repository is a
Windows desktop-duplication sample and only builds there), so
`i64Prefix = "I64"`, `wcharPrefix = ""` and `wcharType = 'S'`.

C strings are modelled as `List Char` without the terminating null byte;
reading past the end of the list yields the null character, which mirrors
the guarantee "we can always safely look one ahead, because `fmt` is by
definition zero terminated".  The external `vsnprintf` primitive is kept
abstract as a `Backend` parameter: it receives the conversion spec, the
variadic payload and the buffer size, and returns the raw `vsnprintf`
return value together with the bytes it deposited in the buffer.
-/

namespace tsf

/-- The null byte terminating every C string. -/
def nulChar : Char := Char.ofNat 0

/-- `fmt[i]` for a null-terminated C string modelled as a `List Char`:
positions past the end read the terminator. -/
def fmtAt (fmt : List Char) (i : Nat) : Char := fmt.getD i nulChar

/-- `static const size_t argbuf_arraysize = 16;` -/
def argbuf_arraysize : Nat := 16

/-- `i64Prefix` on `_WIN32`. -/
def i64Pre : List Char := "I64".toList

/-- `wcharPrefix` on `_WIN32`. -/
def wcharPre : List Char := "".toList

/-- `wcharType` on `_WIN32`. -/
def wcharType : Char := 'S'

/-- The lower-case digit look-up table of `format_integer`. -/
def lutLo : List Char :=
  "zyxwvutsrqponmlkjihgfedcba9876543210123456789abcdefghijklmnopqrstuvwxyz".toList

/-- The upper-case digit look-up table of `format_integer`. -/
def lutHi : List Char :=
  "ZYXWVUTSRQPONMLKJIHGFEDCBA9876543210123456789ABCDEFGHIJKLMNOPQRSTUVWXYZ".toList

/-- `lut[idx]` where `lut` is chosen by the `upcase` template argument and
`idx` is the (always in-range in the source) signed index `35 + remainder`. -/
def lutAt (upcase : Bool) (idx : Int) : Char :=
  (if upcase then lutHi else lutLo).getD idx.toNat '?'

/-- The do/while loop of `format_integer` for an unsigned `TInt`
(`uint32_t`/`uint64_t`): division is C unsigned division, and the
`tmp_value < 0` test is always false for an unsigned type.  The loop runs
at most `value + 1` times (the base is at least 10 by the `static_assert`),
so running it on `value + 1` fuel is exact; digits are produced
least-significant first, as in the source's `buf`. -/
def fiGoU (base : Nat) (upcase : Bool) : Nat → Nat → List Char
  | 0, _ => []
  | fuel + 1, value =>
    let tmp_value := value
    let value' := value / base
    let c := lutAt upcase (35 + ((tmp_value : Int) - (value' : Int) * (base : Int)))
    if value' = 0 then [c] else c :: fiGoU base upcase fuel value'

/-- The do/while loop of `format_integer` for a signed `TInt`
(`int32_t`/`int64_t`): C signed division truncates toward zero
(`Int.tdiv`), and the loop also returns the final `tmp_value`, whose sign
decides whether a `'-'` is appended.  Digits least-significant first. -/
def fiGoI (base : Int) (upcase : Bool) : Nat → Int → List Char × Int
  | 0, value => ([], value)
  | fuel + 1, value =>
    let tmp_value := value
    let value' := value.tdiv base
    let c := lutAt upcase (35 + (tmp_value - value' * base))
    if value' = 0 then ([c], tmp_value)
    else
      let r := fiGoI base upcase fuel value'
      (c :: r.1, r.2)

/-- `format_integer<TInt, tbase, upcase>` for unsigned `TInt`: the digit
buffer is emitted in reverse (most-significant first) into the
destination; the returned byte list is exactly what lands in
`destination`, and its length is the returned count `n`. -/
def format_integer_u (base : Nat) (upcase : Bool) (value : Nat) : List Char :=
  (fiGoU base upcase (value + 1) value).reverse

/-- `format_integer<TInt, tbase, upcase>` for signed `TInt`: after the
loop, a `'-'` is appended to the digit buffer when the last `tmp_value`
is negative, and the buffer is emitted in reverse. -/
def format_integer_i (base : Int) (upcase : Bool) (value : Int) : List Char :=
  let r := fiGoI base upcase (value.natAbs + 1) value
  (if r.2 < 0 then r.1 ++ ['-'] else r.1).reverse

/-- `int32_t` reinterpretation of a 32-bit payload given as a `Nat`
(the implicit `uint32_t → int32_t` conversion at a call like
`format_int32(..., arg->UI32)`). -/
def toI32 (n : Nat) : Int :=
  if n % 2 ^ 32 < 2 ^ 31 then (n % 2 ^ 32 : Nat) else (n % 2 ^ 32 : Nat) - 2 ^ 32

/-- `uint32_t` reinterpretation of an `int32_t` value
(the implicit conversion at `format_integer<uint32_t, ...>(destination, v)`). -/
def toU32 (v : Int) : Nat := (v % 2 ^ 32).toNat

/-- `int64_t` reinterpretation of a 64-bit payload given as a `Nat`. -/
def toI64 (n : Nat) : Int :=
  if n % 2 ^ 64 < 2 ^ 63 then (n % 2 ^ 64 : Nat) else (n % 2 ^ 64 : Nat) - 2 ^ 64

/-- `uint64_t` reinterpretation of an `int64_t` value. -/
def toU64 (v : Int) : Nat := (v % 2 ^ 64).toNat

/-- `tsf::fmtarg`: tagged union of the supported argument shapes.  Each
constructor carries the payload of the union member that is valid for its
tag (pointers as addresses, doubles as their 64 bit patterns). -/
inductive Fmtarg where
  | TNull : Fmtarg
  | TPtr (p : Nat) : Fmtarg
  | TCStr (s : List Char) : Fmtarg
  | TWStr (s : List Nat) : Fmtarg
  | TI32 (v : Int) : Fmtarg
  | TU32 (v : Nat) : Fmtarg
  | TI64 (v : Int) : Fmtarg
  | TU64 (v : Nat) : Fmtarg
  | TDbl (bits : Nat) : Fmtarg
deriving DecidableEq

/-- The variadic payload handed to the platform `vsnprintf` on the paths
that delegate to it. -/
inductive VArg where
  | ptr (p : Nat) : VArg
  | str (s : List Char) : VArg
  | wstr (s : List Nat) : VArg
  | i32 (v : Int) : VArg
  | i64 (v : Int) : VArg
  | dbl (bits : Nat) : VArg
deriving DecidableEq

/-- The external platform formatting primitive (`vsnprintf`), kept
abstract: given the conversion spec, variadic payload and buffer size
`count`, it returns the raw `vsnprintf` return value and the bytes it
deposited in the destination buffer. -/
structure Backend where
  vsnprintf : List Char → VArg → Nat → Int × List Char

/-- `fmt_translate_snprintf_return_value`. -/
def fmt_translate_snprintf_return_value (r : Int) (count : Nat) : Int :=
  if r < 0 ∨ r ≥ (count : Int) then -1 else r

/-- `fmt_snprintf`: calls `vsnprintf` and translates its return value. -/
def fmt_snprintf (B : Backend) (count : Nat) (format_str : List Char) (a : VArg) :
    Int × List Char :=
  let r := B.vsnprintf format_str a count
  (fmt_translate_snprintf_return_value r.1 count, r.2)

/-- `tsf::context`: the two optional escape hooks.  A hook receives the
destination size and the argument and returns the number of characters
written (or a failure indicator) together with the bytes it wrote. -/
structure Context where
  Escape_Q : Option (Nat → Fmtarg → Int × List Char)
  Escape_q : Option (Nat → Fmtarg → Int × List Char)

/-- `format_string`: fast path for a plain `%s` spec, copying the argument
up to its terminator or `count` bytes (returning `-1` when the string does
not fit); any other spec goes to `fmt_snprintf`. -/
def format_string (B : Backend) (count : Nat) (format_str : List Char) (s : List Char) :
    Int × List Char :=
  if fmtAt format_str 0 = '%' ∧ fmtAt format_str 1 = 's' then
    let t := s.takeWhile (fun c => c ≠ nulChar)
    if t.length < count then ((t.length : Int), t) else (-1, t.take count)
  else fmt_snprintf B count format_str (VArg.str s)

/-- `format_int32`: dispatches a plain `%d`/`%i`/`%u`/`%x`/`%X` spec with a
big enough buffer to `format_integer`, and everything else to
`fmt_snprintf`.  `v` is the 32-bit payload in its `int32_t` reading. -/
def format_int32 (B : Backend) (count : Nat) (format_str : List Char) (v : Int) :
    Int × List Char :=
  let fallback := fmt_snprintf B count format_str (VArg.i32 v)
  if fmtAt format_str 1 = 'd' ∨ fmtAt format_str 1 = 'i' then
    if count ≥ 11 then
      let out := format_integer_i 10 false v
      ((out.length : Int), out)
    else fallback
  else if fmtAt format_str 1 = 'u' then
    if count ≥ 11 then
      let out := format_integer_u 10 false (toU32 v)
      ((out.length : Int), out)
    else fallback
  else if fmtAt format_str 1 = 'x' then
    if count ≥ 8 then
      let out := format_integer_u 16 false (toU32 v)
      ((out.length : Int), out)
    else fallback
  else if fmtAt format_str 1 = 'X' then
    if count ≥ 8 then
      let out := format_integer_u 16 true (toU32 v)
      ((out.length : Int), out)
    else fallback
  else fallback

/-- `format_int64` (on `_WIN32`): a spec is "plain" when the three
characters after `%` are the `I64` length prefix; the conversion letter is
then at index 4.  `v` is the 64-bit payload in its `int64_t` reading. -/
def format_int64 (B : Backend) (count : Nat) (format_str : List Char) (v : Int) :
    Int × List Char :=
  let fallback := fmt_snprintf B count format_str (VArg.i64 v)
  let isPlain := fmtAt format_str 1 = 'I' ∧ fmtAt format_str 2 = '6' ∧ fmtAt format_str 3 = '4'
  if isPlain then
    if fmtAt format_str 4 = 'd' ∨ fmtAt format_str 4 = 'i' then
      if count ≥ 20 then
        let out := format_integer_i 10 false v
        ((out.length : Int), out)
      else fallback
    else if fmtAt format_str 4 = 'u' then
      if count ≥ 20 then
        let out := format_integer_u 10 false (toU64 v)
        ((out.length : Int), out)
      else fallback
    else if fmtAt format_str 4 = 'x' then
      if count ≥ 16 then
        let out := format_integer_u 16 false (toU64 v)
        ((out.length : Int), out)
      else fallback
    else if fmtAt format_str 4 = 'X' then
      if count ≥ 16 then
        let out := format_integer_u 16 true (toU64 v)
        ((out.length : Int), out)
      else fallback
    else fallback
  else fallback

/-- `fmt_settype(argbuf, pos, width, type)`: with a width string, first
strip one trailing `l`/`h`/`w` length modifier, then append the width
characters and the type letter; without one, just append the type letter.
The spec is modelled without its terminating null byte. -/
def fmt_settype (argbuf : List Char) (width : Option (List Char)) (type : Char) :
    List Char :=
  match width with
  | some w =>
    let ab :=
      if argbuf.getLast? = some 'l' ∨ argbuf.getLast? = some 'h' ∨ argbuf.getLast? = some 'w'
      then argbuf.dropLast else argbuf
    ab ++ w ++ [type]
  | none => argbuf ++ [type]

/-- `fmt_output_with_snprintf`: retypes the scratch spec `argbuf` to match
the argument's tag and dispatches to the matching formatter.  Returns the
`written` count and the bytes deposited in the output region. -/
def fmt_output_with_snprintf (B : Backend) (fmt_type : Char) (argbuf : List Char)
    (outputSize : Nat) (arg : Fmtarg) : Int × List Char :=
  let tokenint := fmt_type = 'd' ∨ fmt_type = 'i' ∨ fmt_type = 'o' ∨ fmt_type = 'u' ∨
    fmt_type = 'x' ∨ fmt_type = 'X'
  let tokenreal := fmt_type = 'e' ∨ fmt_type = 'E' ∨ fmt_type = 'f' ∨ fmt_type = 'g' ∨
    fmt_type = 'G' ∨ fmt_type = 'a' ∨ fmt_type = 'A'
  match arg with
  | Fmtarg.TNull => (0, [])
  | Fmtarg.TPtr p => fmt_snprintf B outputSize (fmt_settype argbuf none 'p') (VArg.ptr p)
  | Fmtarg.TCStr s => format_string B outputSize (fmt_settype argbuf (some []) 's') s
  | Fmtarg.TWStr s =>
    fmt_snprintf B outputSize (fmt_settype argbuf (some wcharPre) wcharType) (VArg.wstr s)
  | Fmtarg.TI32 v =>
    if fmt_type = 'c' then format_int32 B outputSize (fmt_settype argbuf (some []) 'c') v
    else if tokenint then format_int32 B outputSize (fmt_settype argbuf (some []) fmt_type) v
    else format_int32 B outputSize (fmt_settype argbuf (some []) 'd') v
  | Fmtarg.TU32 n =>
    if tokenint then format_int32 B outputSize (fmt_settype argbuf (some []) fmt_type) (toI32 n)
    else format_int32 B outputSize (fmt_settype argbuf (some []) 'u') (toI32 n)
  | Fmtarg.TI64 v =>
    if tokenint then format_int64 B outputSize (fmt_settype argbuf (some i64Pre) fmt_type) v
    else format_int64 B outputSize (fmt_settype argbuf (some i64Pre) 'd') v
  | Fmtarg.TU64 n =>
    if tokenint then format_int64 B outputSize (fmt_settype argbuf (some i64Pre) fmt_type) (toI64 n)
    else format_int64 B outputSize (fmt_settype argbuf (some i64Pre) 'u') (toI64 n)
  | Fmtarg.TDbl bits =>
    if tokenreal then
      fmt_snprintf B outputSize (fmt_settype argbuf none fmt_type) (VArg.dbl bits)
    else fmt_snprintf B outputSize (fmt_settype argbuf none 'g') (VArg.dbl bits)

/-- `tsf::StackBuffer`.  `data` models the meaningful bytes of the backing
store, i.e. the region `[0, Pos)`; `Capacity` and `OwnBuffer` are the
fields of the same names.  The identity of the `Buffer` pointer is tracked
through `OwnBuffer`: the pointer is the caller's `staticbuf` exactly until
the first growth, which replaces it with a heap block. -/
structure StackBuffer where
  data : List Char
  Pos : Nat
  Capacity : Nat
  OwnBuffer : Bool
deriving DecidableEq

/-- The `StackBuffer(staticbuf, staticbuf_size)` constructor. -/
def StackBuffer.mk0 (staticbuf_size : Nat) : StackBuffer :=
  { data := [], Pos := 0, Capacity := staticbuf_size, OwnBuffer := false }

/-- `StackBuffer::Reserve`, with the `delete[]`-of-the-old-block decision
returned alongside: the second component is true exactly when the old
storage was heap-owned and is released by this call.  The `memcpy` of the
first `Pos` bytes is the identity on `data`. -/
def reserveCore (b : StackBuffer) (bytes : Nat) : StackBuffer × Bool :=
  if b.Pos + bytes > b.Capacity then
    let ncap := b.Capacity * 2
    let ncap := if ncap < b.Pos + bytes then b.Pos + bytes else ncap
    ({ b with Capacity := ncap, OwnBuffer := true }, b.OwnBuffer)
  else (b, false)

/-- `StackBuffer::Reserve` as the engine uses it. -/
def StackBuffer.Reserve (b : StackBuffer) (bytes : Nat) : StackBuffer :=
  (reserveCore b bytes).1

/-- `StackBuffer::MoveCurrentPos` (the engine only ever passes a
non-positive delta).  Bytes beyond the new cursor stop being meaningful. -/
def StackBuffer.MoveCurrentPos (b : StackBuffer) (delta : Int) : StackBuffer :=
  let np := ((b.Pos : Int) + delta).toNat
  { b with Pos := np, data := b.data.take np }

/-- `StackBuffer::AddUninitialized`: reserve and advance the cursor; the
reserved region is uninitialized until a writer fills it (modelled with
null placeholder bytes, overwritten by `writeAt`). -/
def StackBuffer.AddUninit (b : StackBuffer) (bytes : Nat) : StackBuffer :=
  let b' := b.Reserve bytes
  { b' with Pos := b'.Pos + bytes, data := b'.data ++ List.replicate bytes nulChar }

/-- A writer depositing `bytes` at offset `off` of the backing store
(`memcpy`-style overwrite; the cursor does not move). -/
def writeAt (b : StackBuffer) (off : Nat) (bytes : List Char) : StackBuffer :=
  { b with data := b.data.take off ++ bytes ++ b.data.drop (off + bytes.length) }

/-- `StackBuffer::Add`: `AddUninitialized(1)` followed by storing the byte. -/
def StackBuffer.Add (b : StackBuffer) (c : Char) : StackBuffer :=
  let b' := b.Reserve 1
  { b' with Pos := b'.Pos + 1, data := b'.data ++ [c] }

/-- `StackBuffer::RemainingSpace`. -/
def StackBuffer.RemainingSpace (b : StackBuffer) : Nat := b.Capacity - b.Pos

/-- `const ssize_t MaxOutputSize = 1 * 1024 * 1024;` -/
def MaxOutputSize : Nat := 1048576

/-- The closed set of conversion letters recognized by the scanner's
switch statement. -/
def convLetters : List Char :=
  ['a', 'A', 'c', 'C', 'd', 'i', 'e', 'E', 'f', 'g', 'G', 'H', 'o', 's', 'S', 'u', 'x',
    'X', 'p', 'n', 'v', 'q', 'Q']

/-- The literal-copy fast loop
`for (; i < stopAt && fmt[i] != '%' && fmt[i] != 0; i++) Buffer[Pos++] = fmt[i];`
with `gas = stopAt - i` making the `i < stopAt` bound structural. -/
def litCopyAux (fmt : List Char) : Nat → Nat → StackBuffer → StackBuffer × Nat
  | 0, i, b => (b, i)
  | gas + 1, i, b =>
    if fmtAt fmt i ≠ '%' ∧ fmtAt fmt i ≠ nulChar then
      litCopyAux fmt gas (i + 1)
        { b with Pos := b.Pos + 1, data := b.data ++ [fmtAt fmt i] }
    else (b, i)

/-- The literal-copy loop from `i` up to `stopAt`. -/
def litCopy (fmt : List Char) (i stopAt : Nat) (b : StackBuffer) : StackBuffer × Nat :=
  litCopyAux fmt (stopAt - i) i b

/-- `for (ssize_t j = tokenstart; j <= i; j++) output.Add(fmt[j]);`
with `gas = stop + 1 - j` making the loop structural. -/
def addRangeAux (fmt : List Char) : Nat → Nat → StackBuffer → StackBuffer
  | 0, _, b => b
  | gas + 1, j, b => addRangeAux fmt gas (j + 1) (b.Add (fmtAt fmt j))

/-- Copy the raw bytes `fmt[tokenstart..i]` (inclusive) to the output. -/
def addRange (fmt : List Char) (tokenstart i : Nat) (b : StackBuffer) : StackBuffer :=
  addRangeAux fmt (i + 1 - tokenstart) tokenstart b

/-- The grow-until-it-fits retry loop around one directive's writer.  Each
attempt reserves `outputSize` bytes, lets the writer deposit its bytes,
and then either retracts the cursor to the bytes actually written
(success), keeps the whole provisional chunk (the 1 MiB ceiling was
reached), or discards the chunk, doubles `outputSize` and retries.  The
loop is fuelled: `none` means the source loop has not exited within
`fuel` iterations. -/
def retryLoop (writer : Nat → Int × List Char) :
    Nat → StackBuffer → Nat → Option StackBuffer
  | 0, _, _ => none
  | fuel + 1, b, outputSize =>
    let posBefore := b.Pos
    let b1 := b.AddUninit outputSize
    let w := writer outputSize
    let b2 := writeAt b1 posBefore w.2
    if w.1 ≥ 0 ∧ w.1 < (outputSize : Int) then
      some (b2.MoveCurrentPos (w.1 - (outputSize : Int)))
    else if outputSize ≥ MaxOutputSize then
      some b2
    else
      retryLoop writer fuel (b2.MoveCurrentPos (-(outputSize : Int))) (outputSize * 2)

/-- The writer a directive hands to the retry loop: the `q`/`Q` escape
hook when the letter at `i` is one of those, otherwise
`fmt_output_with_snprintf` on the scratch spec (the directive body
`fmt[tokenstart..i)` with every `*` dropped) and the argument at `iarg`. -/
def convWriter (ctx : Context) (B : Backend) (fmt : List Char) (args : List Fmtarg)
    (tokenstart i iarg : Nat) : Nat → Int × List Char := fun outputSize =>
  let argbuf := ((fmt.drop tokenstart).take (i - tokenstart)).filter (fun c => c ≠ '*')
  let arg := args.getD iarg Fmtarg.TNull
  if fmtAt fmt i = 'q' then
    (ctx.Escape_q.getD (fun _ _ => (0, []))) outputSize arg
  else if fmtAt fmt i = 'Q' then
    (ctx.Escape_Q.getD (fun _ _ => (0, []))) outputSize arg
  else fmt_output_with_snprintf B (fmtAt fmt i) argbuf outputSize arg

/-- The body of the recognized-conversion-letter case of the scanner: the
three validity conditions, the literal passthrough when one of them holds,
and otherwise the retry loop around the directive's writer.  Returns the
updated buffer and `iarg` (the caller resets `tokenstart` and advances
`i`). -/
def handleConv (ctx : Context) (B : Backend) (fmt : List Char) (nargs : Nat)
    (args : List Fmtarg) (guess fuel tokenstart i iarg : Nat) (b : StackBuffer) :
    Option (StackBuffer × Nat) :=
  let no_args_remaining := iarg ≥ nargs
  let spec_too_long := i - tokenstart ≥ argbuf_arraysize - 1
  let disallowed := fmtAt fmt i = 'n' ∨ (fmtAt fmt i = 'q' ∧ ctx.Escape_q.isNone) ∨
    (fmtAt fmt i = 'Q' ∧ ctx.Escape_Q.isNone)
  if no_args_remaining ∨ spec_too_long ∨ disallowed then
    some (addRange fmt tokenstart i b, iarg)
  else
    match retryLoop (convWriter ctx B fmt args tokenstart i iarg) fuel b guess with
    | none => none
    | some b' => some (b', iarg + 1)

/-- The scanner's loop state: output buffer, scan position `i`,
`tokenstart` (`none` for `-1`), and the count of consumed arguments. -/
structure FmtState where
  buf : StackBuffer
  i : Nat
  tokenstart : Option Nat
  iarg : Nat
deriving DecidableEq

/-- The main scanning loop of `fmt_core`, fuelled on the number of
iterations of the outer `for` loop (`none` when the fuel runs out before
the source loop exits).  Faithfully mirrors the two-state structure: the
`tokenstart` branch handles one directive character, the scanning branch
runs the literal fast path and decides between entering a directive,
finishing, or growing by one byte and rescanning the same character. -/
def mainLoop (ctx : Context) (B : Backend) (fmt : List Char) (nargs : Nat)
    (args : List Fmtarg) (guess : Nat) : Nat → FmtState → Option StackBuffer
  | 0, _ => none
  | fuel + 1, s =>
    if fmtAt fmt s.i = nulChar then some s.buf
    else
      match s.tokenstart with
      | some ts =>
        if fmtAt fmt s.i ∈ convLetters then
          match handleConv ctx B fmt nargs args guess fuel ts s.i s.iarg s.buf with
          | none => none
          | some r =>
            mainLoop ctx B fmt nargs args guess fuel
              { buf := r.1, i := s.i + 1, tokenstart := none, iarg := r.2 }
        else if fmtAt fmt s.i = '%' then
          mainLoop ctx B fmt nargs args guess fuel
            { buf := s.buf.Add '%', i := s.i + 1, tokenstart := none, iarg := s.iarg }
        else
          mainLoop ctx B fmt nargs args guess fuel { s with i := s.i + 1 }
      | none =>
        let r := litCopy fmt s.i (s.i + s.buf.RemainingSpace) s.buf
        if fmtAt fmt r.2 = '%' then
          mainLoop ctx B fmt nargs args guess fuel
            { buf := r.1, i := r.2 + 1, tokenstart := some r.2, iarg := s.iarg }
        else if fmtAt fmt r.2 = nulChar then some r.1
        else
          mainLoop ctx B fmt nargs args guess fuel
            { s with buf := r.1.Reserve 1, i := r.2 }

/-- Where the returned storage lives: the caller-supplied buffer or a
freshly allocated heap block.  `fmt_core` never returns the input format
string itself, which is why no third alternative exists. -/
inductive Storage where
  | callerBuf : Storage
  | heap : Storage
deriving DecidableEq

/-- The `StrLenPair` result enriched with the storage provenance of the
returned pointer.  `str` holds every byte the engine deposited in the
returned storage (including the terminating null); `Len` is the returned
length field. -/
structure FmtResult where
  storage : Storage
  str : List Char
  Len : Nat
deriving DecidableEq

/-- `strlen`. -/
def cstrlen (s : List Char) : Nat := (s.takeWhile (fun c => c ≠ nulChar)).length

/-- `fmt_core(context, fmt, nargs, args, staticbuf, staticbuf_size)`:
the zero-argument fast path copies `len + 1` bytes of the format string
into the caller buffer when `staticbuf_size != 0 && len <= staticbuf_size + 1`
(and into a fresh heap block otherwise); with arguments it runs the
scanner, null-terminates and returns buffer and `Pos - 1`.  `fuel` bounds
the scanner's iterations; `none` reports that the source would still be
looping after `fuel` steps. -/
def fmt_core (ctx : Context) (B : Backend) (fmt : List Char) (nargs : Nat)
    (args : List Fmtarg) (staticbuf_size : Nat) (fuel : Nat) : Option FmtResult :=
  if nargs = 0 then
    let len := cstrlen fmt
    if staticbuf_size ≠ 0 ∧ len ≤ staticbuf_size + 1 then
      some { storage := Storage.callerBuf, str := fmt.take len ++ [nulChar], Len := len }
    else
      some { storage := Storage.heap, str := fmt.take len ++ [nulChar], Len := len }
  else
    let guess := staticbuf_size / 4
    match mainLoop ctx B fmt nargs args guess fuel
        { buf := StackBuffer.mk0 staticbuf_size, i := 0, tokenstart := none, iarg := 0 } with
    | none => none
    | some b =>
      let b' := b.Add nulChar
      some { storage := if b'.OwnBuffer then Storage.heap else Storage.callerBuf,
             str := b'.data, Len := b'.Pos - 1 }

/-- Modelled from the spec: the digit bytes the generic `snprintf` backend
prints for a plain decimal or hexadecimal conversion, i.e. the standard
most-significant-first positional rendering (`Nat.toDigits` is the
canonical such rendering, lower-case for `a`–`f`), upper-cased for an
upper-case conversion letter. -/
def specNatDigits (base : Nat) (upcase : Bool) (n : Nat) : List Char :=
  if upcase then (Nat.toDigits base n).map Char.toUpper else Nat.toDigits base n

/-- Modelled from the spec: the generic backend's rendering of a signed
decimal value — a minus sign followed by the magnitude's digits. -/
def specIntDec (v : Int) : List Char :=
  if v < 0 then '-' :: specNatDigits 10 false v.natAbs else specNatDigits 10 false v.natAbs

/-- Modelled from the spec: what the generic `snprintf` backend produces
(digit bytes; the returned length is their count) for the plain 32-bit
conversions `%d`/`%i`/`%u`/`%x`/`%X` applied to the 32-bit payload whose
`int32_t` reading is `v`. -/
def sn32 (letter : Char) (v : Int) : List Char :=
  if letter = 'd' ∨ letter = 'i' then specIntDec v
  else if letter = 'u' then specNatDigits 10 false (toU32 v)
  else if letter = 'x' then specNatDigits 16 false (toU32 v)
  else if letter = 'X' then specNatDigits 16 true (toU32 v)
  else []

/-- Modelled from the spec: the generic backend's output for the plain
64-bit conversions `%I64d`/`%I64i`/`%I64u`/`%I64x`/`%I64X`. -/
def sn64 (letter : Char) (v : Int) : List Char :=
  if letter = 'd' ∨ letter = 'i' then specIntDec v
  else if letter = 'u' then specNatDigits 10 false (toU64 v)
  else if letter = 'x' then specNatDigits 16 false (toU64 v)
  else if letter = 'X' then specNatDigits 16 true (toU64 v)
  else []

/-- The tag's natural conversion letter, as the claim lists them:
`d` for the signed integer tags, `u` for the unsigned ones, `g` for
`Double`, `s` for `CString`, `p` for `Pointer`. -/
def naturalLetter : Fmtarg → Char
  | Fmtarg.TI32 _ => 'd'
  | Fmtarg.TI64 _ => 'd'
  | Fmtarg.TU32 _ => 'u'
  | Fmtarg.TU64 _ => 'u'
  | Fmtarg.TDbl _ => 'g'
  | Fmtarg.TCStr _ => 's'
  | Fmtarg.TPtr _ => 'p'
  | _ => 'v'

/-- The conversion letters whose printf argument class matches a tag:
the six integer letters for the integer tags (plus `c` for `Signed32`,
printf's `%c` taking a promoted `int`), the seven floating letters for
`Double`, `s` for `CString`, `p` for `Pointer`. -/
def acceptedLetters : Fmtarg → List Char
  | Fmtarg.TI32 _ => ['c', 'd', 'i', 'o', 'u', 'x', 'X']
  | Fmtarg.TU32 _ => ['d', 'i', 'o', 'u', 'x', 'X']
  | Fmtarg.TI64 _ => ['d', 'i', 'o', 'u', 'x', 'X']
  | Fmtarg.TU64 _ => ['d', 'i', 'o', 'u', 'x', 'X']
  | Fmtarg.TDbl _ => ['e', 'E', 'f', 'g', 'G', 'a', 'A']
  | Fmtarg.TCStr _ => ['s']
  | Fmtarg.TPtr _ => ['p']
  | _ => []

/-- A recognized explicit conversion letter conflicting with the
argument's actual tag: it is in the scanner's closed letter set, is an
actual conversion request (not the generic `v`, the hook letters `q`/`Q`,
or `n`, which never reach the retyping dispatch), and its argument class
does not match the tag. -/
def conflictsWith (arg : Fmtarg) (letter : Char) : Prop :=
  letter ∈ convLetters ∧ letter ∉ ['v', 'q', 'Q', 'n'] ∧ letter ∉ acceptedLetters arg

instance (arg : Fmtarg) (letter : Char) : Decidable (conflictsWith arg letter) := by
  unfold conflictsWith
  infer_instance

/-- A trivial concrete backend (used to instantiate witnesses; the claims
proved with it never reach the `vsnprintf` fallback). -/
def B0 : Backend := { vsnprintf := fun _ _ _ => (-1, []) }

/-- The default `tsf::context`: both escape hooks unset. -/
def ctx0 : Context := { Escape_Q := none, Escape_q := none }


theorem lut_sym : ∀ (u : Bool) (d : Fin 16), lutAt u (35 - (d.val : Int)) = lutAt u (35 + (d.val : Int)) := by decide

theorem lut_lo_digit : ∀ d : Fin 16, lutAt false (35 + (d.val : Int)) = Nat.digitChar d.val := by decide

theorem lut_hi_digit : ∀ d : Fin 16, lutAt true (35 + (d.val : Int)) = Char.toUpper (lutAt false (35 + (d.val : Int))) := by decide

theorem remainder_cast (v base : Nat) :
    (v : Int) - ((v / base : Nat) : Int) * (base : Int) = ((v % base : Nat) : Int) := by
  have h := Nat.div_add_mod v base
  push_cast
  nlinarith [h]

theorem fiGoU_toDigitsCore (base : Nat) (hb : base = 10 ∨ base = 16) :
    ∀ (fuel v : Nat) (ds : List Char), v < fuel →
      Nat.toDigitsCore base fuel v ds = (fiGoU base false fuel v).reverse ++ ds := by
  intro fuel
  induction fuel with
  | zero => intro v ds h; omega
  | succ fuel ih =>
    intro v ds h
    have hb2 : 2 ≤ base := by rcases hb with h1 | h1 <;> omega
    have hb16 : base ≤ 16 := by rcases hb with h1 | h1 <;> omega
    have hmod : v % base < 16 := lt_of_lt_of_le (Nat.mod_lt v (by omega)) hb16
    have hc : lutAt false (35 + ((v : Int) - ((v / base : Nat) : Int) * (base : Int)))
        = Nat.digitChar (v % base) := by
      rw [remainder_cast v base]
      exact lut_lo_digit ⟨v % base, hmod⟩
    simp only [Nat.toDigitsCore, fiGoU]
    rw [hc]
    by_cases hq : v / base = 0
    · rw [if_pos hq, if_pos hq]
      simp
    · have hlt : v / base < fuel := by
        have hvpos : 0 < v := by
          rcases Nat.eq_zero_or_pos v with h0 | h0
          · exact absurd (by simp [h0]) hq
          · exact h0
        have := Nat.div_lt_self hvpos (by omega : 1 < base)
        omega
      rw [if_neg hq, if_neg hq, ih _ _ hlt]
      simp


theorem fiGoU_upper (base : Nat) (hb : base = 10 ∨ base = 16) :
    ∀ (fuel v : Nat), fiGoU base true fuel v = (fiGoU base false fuel v).map Char.toUpper := by
  intro fuel
  induction fuel with
  | zero => intro v; rfl
  | succ fuel ih =>
    intro v
    have hb16 : base ≤ 16 := by rcases hb with h1 | h1 <;> omega
    have hmod : v % base < 16 :=
      lt_of_lt_of_le (Nat.mod_lt v (by rcases hb with h1 | h1 <;> omega)) hb16
    have hc : lutAt true (35 + ((v % base : Nat) : Int))
        = Char.toUpper (lutAt false (35 + ((v % base : Nat) : Int))) :=
      lut_hi_digit ⟨v % base, hmod⟩
    simp only [fiGoU]
    rw [remainder_cast v base]
    by_cases hq : v / base = 0
    · rw [if_pos hq, if_pos hq]
      simp only [List.map_cons, List.map_nil, hc]
    · rw [if_neg hq, if_neg hq, ih]
      simp only [List.map_cons, hc]

theorem format_integer_u_spec (base : Nat) (hb : base = 10 ∨ base = 16) (u : Bool) (v : Nat) :
    format_integer_u base u v = specNatDigits base u v := by
  have hlo : format_integer_u base false v = Nat.toDigits base v := by
    have h := fiGoU_toDigitsCore base hb (v + 1) v [] (by omega)
    simp only [Nat.toDigits]
    rw [h]
    simp [format_integer_u]
  cases u with
  | false => simpa [specNatDigits] using hlo
  | true =>
    have hup := fiGoU_upper base hb (v + 1) v
    show (fiGoU base true (v + 1) v).reverse = specNatDigits base true v
    rw [hup, ← List.map_reverse]
    have hgoal : specNatDigits base true v = (Nat.toDigits base v).map Char.toUpper := by
      simp [specNatDigits]
    rw [hgoal, ← hlo]
    rfl

theorem fiGoI_spec (base : Nat) (hb : base = 10 ∨ base = 16) (u : Bool) :
    ∀ (fuel : Nat) (v : Int), v.natAbs < fuel →
      (fiGoI (base : Int) u fuel v).1 = fiGoU base u fuel v.natAbs ∧
      ((fiGoI (base : Int) u fuel v).2 < 0 ↔ v < 0) := by
  intro fuel
  induction fuel with
  | zero => intro v h; omega
  | succ fuel ih =>
    intro v h
    have hb2 : 2 ≤ base := by rcases hb with h1 | h1 <;> omega
    rcases Int.natAbs_eq v with hv | hv
    · set a := v.natAbs with ha
      have htd : v.tdiv (base : Int) = ((a / base : Nat) : Int) := by
        rw [hv]
        exact (Int.ofNat_tdiv a base).symm
      have hrem : v - ((a / base : Nat) : Int) * (base : Int) = ((a % base : Nat) : Int) := by
        rw [hv]
        exact remainder_cast a base
      have hvneg : ¬ v < 0 := by rw [hv]; omega
      simp only [fiGoI, fiGoU, htd]
      rw [hrem, remainder_cast a base]
      by_cases hq : a / base = 0
      · have hz : ((a / base : Nat) : Int) = 0 := by exact_mod_cast hq
        rw [hz]
        simp only [if_pos rfl, if_pos hq]
        exact ⟨rfl, Iff.rfl⟩
      · have hnz : ((a / base : Nat) : Int) ≠ 0 := by exact_mod_cast hq
        have hapos : 0 < a := by
          by_contra hz
          have ha0 : a = 0 := by omega
          exact hq (by simp [ha0])
        have hlt : (((a / base : Nat) : Int)).natAbs < fuel := by
          simp only [Int.natAbs_ofNat]
          have := Nat.div_lt_self hapos (by omega : 1 < base)
          omega
        have hih := ih ((a / base : Nat) : Int) hlt
        simp only [Int.natAbs_ofNat] at hih
        rw [if_neg hnz, if_neg hq]
        refine ⟨by rw [hih.1], ?_⟩
        have hqn : ¬ (((a / base : Nat) : Int) < 0) := Int.not_lt.mpr (Int.natCast_nonneg _)
        simp only [hih.2]
        constructor
        · intro hc; exact absurd hc hqn
        · intro hc; exact absurd hc hvneg
    · set a := v.natAbs with ha
      have htd : v.tdiv (base : Int) = -((a / base : Nat) : Int) := by
        rw [hv, Int.neg_tdiv]
        exact congrArg Neg.neg (Int.ofNat_tdiv a base).symm
      have hrem : v - (-((a / base : Nat) : Int)) * (base : Int) = -((a % base : Nat) : Int) := by
        rw [hv]
        have hrc := remainder_cast a base
        push_cast at hrc ⊢
        linarith
      have hmod16 : a % base < 16 := by
        have h16 : base ≤ 16 := by rcases hb with h1 | h1 <;> omega
        have := Nat.mod_lt a (show 0 < base by omega)
        omega
      have hsym : lutAt u (35 - ((a % base : Nat) : Int)) = lutAt u (35 + ((a % base : Nat) : Int)) :=
        lut_sym u ⟨a % base, hmod16⟩
      simp only [fiGoI, fiGoU, htd]
      rw [hrem]
      have hidx : (35 : Int) + -((a % base : Nat) : Int) = 35 - ((a % base : Nat) : Int) := by ring
      rw [hidx, hsym, remainder_cast a base]
      by_cases hq : a / base = 0
      · have hz0 : ((a / base : Nat) : Int) = 0 := by exact_mod_cast hq
        have hz : -((a / base : Nat) : Int) = 0 := by rw [hz0]; exact neg_zero
        rw [hz]
        simp only [if_pos rfl, if_pos hq]
        exact ⟨rfl, Iff.rfl⟩
      · have hnz : ¬ (-((a / base : Nat) : Int) = 0) := by
          intro hcontra
          have hz0 : ((a / base : Nat) : Int) = 0 := neg_eq_zero.mp hcontra
          exact hq (by exact_mod_cast hz0)
        have hapos : 0 < a := by
          by_contra hz
          have ha0 : a = 0 := by omega
          exact hq (by simp [ha0])
        have hlt : ((-((a / base : Nat) : Int))).natAbs < fuel := by
          simp only [Int.natAbs_neg, Int.natAbs_ofNat]
          have := Nat.div_lt_self hapos (by omega : 1 < base)
          omega
        have hih := ih (-((a / base : Nat) : Int)) hlt
        have habs : ((-((a / base : Nat) : Int))).natAbs = a / base := by
          simp only [Int.natAbs_neg, Int.natAbs_ofNat]
        rw [habs] at hih
        rw [if_neg hnz, if_neg hq]
        refine ⟨by rw [hih.1], ?_⟩
        have hqneg : (-((a / base : Nat) : Int)) < 0 := by
          have hpos : (0 : Int) < ((a / base : Nat) : Int) := by
            exact_mod_cast Nat.pos_of_ne_zero hq
          exact neg_neg_of_pos hpos
        have hvneg : v < 0 := by
          rw [hv]
          have hpos2 : (0 : Int) < (a : Int) := by exact_mod_cast hapos
          omega
        simp only [hih.2]
        exact ⟨fun _ => hvneg, fun _ => hqneg⟩


theorem format_integer_i_spec (base : Nat) (hb : base = 10 ∨ base = 16) (u : Bool) (v : Int) :
    format_integer_i ((base : Nat) : Int) u v =
      if v < 0 then '-' :: specNatDigits base u v.natAbs else specNatDigits base u v.natAbs := by
  have hs := fiGoI_spec base hb u (v.natAbs + 1) v (Nat.lt_succ_self _)
  have hu : (fiGoU base u (v.natAbs + 1) v.natAbs).reverse = specNatDigits base u v.natAbs :=
    format_integer_u_spec base hb u v.natAbs
  simp only [format_integer_i]
  by_cases hneg : v < 0
  · rw [if_pos (hs.2.mpr hneg), if_pos hneg, hs.1, List.reverse_append, ← hu]
    rfl
  · rw [if_neg (fun hc => hneg (hs.2.mp hc)), if_neg hneg, hs.1, ← hu]

theorem format_integer_i_dec (v : Int) : format_integer_i 10 false v = specIntDec v := by
  have h := format_integer_i_spec 10 (Or.inl rfl) false v
  have hcast : (((10 : Nat) : Int)) = (10 : Int) := by norm_num
  rw [hcast] at h
  rw [h]
  simp only [specIntDec]

/-- C1: across the full representable range of each integer tag, the fast
integer path as dispatched by `format_int32`/`format_int64` on the plain
decimal and hexadecimal specs produces exactly the digit bytes, and the
returned length, of the generic `snprintf` backend for the same value,
base and case style. -/
theorem claim_C1 :
    (∀ (B : Backend) (count : Nat) (v : Int), -(2 ^ 31) ≤ v → v < 2 ^ 31 →
      ((11 ≤ count →
        format_int32 B count ("%d".toList) v = (((sn32 'd' v).length : Int), sn32 'd' v) ∧
        format_int32 B count ("%i".toList) v = (((sn32 'i' v).length : Int), sn32 'i' v) ∧
        format_int32 B count ("%u".toList) v = (((sn32 'u' v).length : Int), sn32 'u' v)) ∧
       (8 ≤ count →
        format_int32 B count ("%x".toList) v = (((sn32 'x' v).length : Int), sn32 'x' v) ∧
        format_int32 B count ("%X".toList) v = (((sn32 'X' v).length : Int), sn32 'X' v)))) ∧
    (∀ (B : Backend) (count : Nat) (v : Int), -(2 ^ 63) ≤ v → v < 2 ^ 63 →
      ((20 ≤ count →
        format_int64 B count ("%I64d".toList) v = (((sn64 'd' v).length : Int), sn64 'd' v) ∧
        format_int64 B count ("%I64i".toList) v = (((sn64 'i' v).length : Int), sn64 'i' v) ∧
        format_int64 B count ("%I64u".toList) v = (((sn64 'u' v).length : Int), sn64 'u' v)) ∧
       (16 ≤ count →
        format_int64 B count ("%I64x".toList) v = (((sn64 'x' v).length : Int), sn64 'x' v) ∧
        format_int64 B count ("%I64X".toList) v = (((sn64 'X' v).length : Int), sn64 'X' v)))) := by
  have hu10 := fun n => format_integer_u_spec 10 (Or.inl rfl) false n
  have hx := fun n => format_integer_u_spec 16 (Or.inr rfl) false n
  have hX := fun n => format_integer_u_spec 16 (Or.inr rfl) true n
  constructor
  · intro B count v _ _
    constructor
    · intro hc
      refine ⟨?_, ?_, ?_⟩
      · have hred : format_int32 B count ("%d".toList) v =
            if 11 ≤ count then (((format_integer_i 10 false v).length : Int),
              format_integer_i 10 false v)
            else fmt_snprintf B count ("%d".toList) (VArg.i32 v) := rfl
        rw [hred, if_pos hc, format_integer_i_dec]
        rfl
      · have hred : format_int32 B count ("%i".toList) v =
            if 11 ≤ count then (((format_integer_i 10 false v).length : Int),
              format_integer_i 10 false v)
            else fmt_snprintf B count ("%i".toList) (VArg.i32 v) := rfl
        rw [hred, if_pos hc, format_integer_i_dec]
        rfl
      · have hred : format_int32 B count ("%u".toList) v =
            if 11 ≤ count then (((format_integer_u 10 false (toU32 v)).length : Int),
              format_integer_u 10 false (toU32 v))
            else fmt_snprintf B count ("%u".toList) (VArg.i32 v) := rfl
        rw [hred, if_pos hc, hu10 (toU32 v)]
        rfl
    · intro hc
      constructor
      · have hred : format_int32 B count ("%x".toList) v =
            if 8 ≤ count then (((format_integer_u 16 false (toU32 v)).length : Int),
              format_integer_u 16 false (toU32 v))
            else fmt_snprintf B count ("%x".toList) (VArg.i32 v) := rfl
        rw [hred, if_pos hc, hx (toU32 v)]
        rfl
      · have hred : format_int32 B count ("%X".toList) v =
            if 8 ≤ count then (((format_integer_u 16 true (toU32 v)).length : Int),
              format_integer_u 16 true (toU32 v))
            else fmt_snprintf B count ("%X".toList) (VArg.i32 v) := rfl
        rw [hred, if_pos hc, hX (toU32 v)]
        rfl
  · intro B count v _ _
    constructor
    · intro hc
      refine ⟨?_, ?_, ?_⟩
      · have hred : format_int64 B count ("%I64d".toList) v =
            if 20 ≤ count then (((format_integer_i 10 false v).length : Int),
              format_integer_i 10 false v)
            else fmt_snprintf B count ("%I64d".toList) (VArg.i64 v) := rfl
        rw [hred, if_pos hc, format_integer_i_dec]
        rfl
      · have hred : format_int64 B count ("%I64i".toList) v =
            if 20 ≤ count then (((format_integer_i 10 false v).length : Int),
              format_integer_i 10 false v)
            else fmt_snprintf B count ("%I64i".toList) (VArg.i64 v) := rfl
        rw [hred, if_pos hc, format_integer_i_dec]
        rfl
      · have hred : format_int64 B count ("%I64u".toList) v =
            if 20 ≤ count then (((format_integer_u 10 false (toU64 v)).length : Int),
              format_integer_u 10 false (toU64 v))
            else fmt_snprintf B count ("%I64u".toList) (VArg.i64 v) := rfl
        rw [hred, if_pos hc, hu10 (toU64 v)]
        rfl
    · intro hc
      constructor
      · have hred : format_int64 B count ("%I64x".toList) v =
            if 16 ≤ count then (((format_integer_u 16 false (toU64 v)).length : Int),
              format_integer_u 16 false (toU64 v))
            else fmt_snprintf B count ("%I64x".toList) (VArg.i64 v) := rfl
        rw [hred, if_pos hc, hx (toU64 v)]
        rfl
      · have hred : format_int64 B count ("%I64X".toList) v =
            if 16 ≤ count then (((format_integer_u 16 true (toU64 v)).length : Int),
              format_integer_u 16 true (toU64 v))
            else fmt_snprintf B count ("%I64X".toList) (VArg.i64 v) := rfl
        rw [hred, if_pos hc, hX (toU64 v)]
        rfl


/-- Witness for C1 at the minimum signed values with the smallest
admissible buffer sizes. -/
theorem claim_C1_witness :
    ((-(2 ^ 31) : Int) ≤ -(2 ^ 31) ∧ (-(2 ^ 31) : Int) < 2 ^ 31 ∧ (11 : Nat) ≤ 11) ∧
    format_int32 B0 11 ("%d".toList) (-(2 ^ 31)) =
      (((sn32 'd' (-(2 ^ 31))).length : Int), sn32 'd' (-(2 ^ 31))) ∧
    format_int64 B0 20 ("%I64d".toList) (-(2 ^ 63)) =
      (((sn64 'd' (-(2 ^ 63))).length : Int), sn64 'd' (-(2 ^ 63))) :=
  ⟨⟨by norm_num, by norm_num, by norm_num⟩,
   ((claim_C1.1 B0 11 (-(2 ^ 31)) (by norm_num) (by norm_num)).1 (by norm_num)).1,
   ((claim_C1.2 B0 20 (-(2 ^ 63)) (by norm_num) (by norm_num)).1 (by norm_num)).1⟩



theorem cstrlen_of_not_mem (fmt : List Char) (hfmt : nulChar ∉ fmt) :
    cstrlen fmt = fmt.length := by
  unfold cstrlen
  rw [List.takeWhile_eq_self_iff.mpr ?_]
  intro x hx
  simp only [ne_eq, decide_eq_true_eq]
  intro hc
  exact hfmt (hc ▸ hx)

/-- C2: for every format string called with zero arguments, `fmt_core`
returns a result whose content bytes and length equal the input exactly
(the storage additionally holds the copied null terminator), and the
returned storage is never the input string: it is the caller buffer when
the fast-path condition holds and a fresh heap block otherwise. -/
theorem claim_C2 (ctx : Context) (B : Backend) (fmt : List Char) (staticbuf_size fuel : Nat)
    (hfmt : nulChar ∉ fmt) :
    fmt_core ctx B fmt 0 [] staticbuf_size fuel =
      some { storage := if staticbuf_size ≠ 0 ∧ fmt.length ≤ staticbuf_size + 1
                        then Storage.callerBuf else Storage.heap,
             str := fmt ++ [nulChar], Len := fmt.length } := by
  have hlen := cstrlen_of_not_mem fmt hfmt
  simp only [fmt_core]
  rw [if_true, hlen, List.take_length]
  by_cases hcond : staticbuf_size ≠ 0 ∧ fmt.length ≤ staticbuf_size + 1
  · rw [if_pos hcond, if_pos hcond]
  · rw [if_neg hcond, if_neg hcond]

/-- Witness for C2. -/
theorem claim_C2_witness :
    nulChar ∉ ("hi".toList) ∧
    fmt_core ctx0 B0 ("hi".toList) 0 [] 16 1 =
      some { storage := if (16 : Nat) ≠ 0 ∧ ("hi".toList).length ≤ 16 + 1
                        then Storage.callerBuf else Storage.heap,
             str := ("hi".toList) ++ [nulChar], Len := ("hi".toList).length } :=
  ⟨by decide, claim_C2 ctx0 B0 ("hi".toList) 16 1 (by decide)⟩


/-- C3 (code bug): with `staticbuf_size = 1` and the zero-argument format
"ab", the result including its terminator needs 3 bytes and does not fit
the 1-byte caller buffer, yet the returned pointer is the caller buffer:
the fast path tests `len <= staticbuf_size + 1` instead of the documented
`len + 1 <= staticbuf_size`. -/
theorem claim_C3 :
    fmt_core ctx0 B0 ("ab".toList) 0 [] 1 1 =
      some { storage := Storage.callerBuf, str := ("ab".toList) ++ [nulChar], Len := 2 } ∧
    ¬ (2 + 1 ≤ 1) :=
  ⟨rfl, by decide⟩

/-- C10 (code bug): on the same input the zero-argument fast path memcpys
`len + 1 = 3` bytes into the caller-supplied buffer of capacity 1. -/
theorem claim_C10 :
    (fmt_core ctx0 B0 ("ab".toList) 0 [] 1 1).map (fun r => (r.storage, r.str.length)) =
      some (Storage.callerBuf, 3) ∧ 1 < 3 :=
  ⟨rfl, by decide⟩

/-- C4 (counterexample): on "%z" with one argument the claim predicts the
raw directive text "%z" in the output; the engine instead absorbs `z`
into the open directive and drops it entirely at end of string, producing
the empty result. -/
theorem claim_C4_counterexample :
    fmt_core ctx0 B0 ("%z".toList) 1 [Fmtarg.TI32 5] 256 10 =
      some { storage := Storage.callerBuf, str := [nulChar], Len := 0 } ∧
    ¬ (fmt_core ctx0 B0 ("%z".toList) 1 [Fmtarg.TI32 5] 256 10 =
      some { storage := Storage.callerBuf, str := '%' :: 'z' :: [nulChar], Len := 2 }) :=
  ⟨rfl, by decide⟩

theorem fmtAt_past_end (fmt : List Char) (i : Nat) (h : fmt.length ≤ i) :
    fmtAt fmt i = nulChar :=
  List.getD_eq_default fmt nulChar h

theorem litCopy_stop (fmt : List Char) (i stop : Nat) (b : StackBuffer)
    (h : fmtAt fmt i = '%' ∨ fmtAt fmt i = nulChar) :
    litCopy fmt i stop b = (b, i) := by
  unfold litCopy
  cases hgas : stop - i with
  | zero => rfl
  | succ gas =>
    show litCopyAux fmt (gas + 1) i b = (b, i)
    rw [litCopyAux]
    rcases h with h | h <;> rw [if_neg (by simp [h])]

theorem mainLoop_absorb (ctx : Context) (B : Backend) (fmt : List Char) (nargs : Nat)
    (args : List Fmtarg) (guess : Nat) :
    ∀ (fuel i ts ia : Nat) (b : StackBuffer),
      (∀ j, i ≤ j → fmtAt fmt j ∉ convLetters ∧ fmtAt fmt j ≠ '%') →
      fmt.length ≤ i + fuel →
      mainLoop ctx B fmt nargs args guess (fuel + 1)
        { buf := b, i := i, tokenstart := some ts, iarg := ia } = some b := by
  intro fuel
  induction fuel with
  | zero =>
    intro i ts ia b hj hlen
    rw [mainLoop]
    rw [if_pos (fmtAt_past_end fmt i (by omega))]
  | succ fuel ih =>
    intro i ts ia b hj hlen
    rw [mainLoop]
    by_cases hnul : fmtAt fmt i = nulChar
    · rw [if_pos hnul]
    · rw [if_neg hnul]
      have h1 : fmtAt fmt i ∉ convLetters := (hj i le_rfl).1
      have h2 : fmtAt fmt i ≠ '%' := (hj i le_rfl).2
      simp only [if_neg h1, if_neg h2]
      exact ih (i + 1) ts ia b (fun j hij => hj j (by omega)) (by omega)




theorem reserve_data (b : StackBuffer) (n : Nat) : (b.Reserve n).data = b.data := by
  unfold StackBuffer.Reserve reserveCore
  by_cases h : b.Pos + n > b.Capacity
  · rw [if_pos h]
  · rw [if_neg h]

theorem addRangeAux_data (fmt : List Char) :
    ∀ (gas j : Nat) (b : StackBuffer),
      (addRangeAux fmt gas j b).data =
        b.data ++ (List.range' j gas).map (fmtAt fmt) := by
  intro gas
  induction gas with
  | zero => intro j b; simp [addRangeAux]
  | succ gas ih =>
    intro j b
    rw [addRangeAux, ih, List.range'_succ]
    simp [StackBuffer.Add, reserve_data]

theorem add_data (b : StackBuffer) (c : Char) : (b.Add c).data = b.data ++ [c] := by
  simp [StackBuffer.Add, reserve_data]

/-- C5: whenever a recognized conversion letter terminates a directive and
one of the three validity conditions fails — no argument remains, the raw
directive text overflows the 16-byte scratch, or the letter is `n` (or
`q`/`Q` with its hook unset) — the engine copies the bytes
`fmt[tokenstart..i]` (the `%` through the letter) verbatim to the output,
consumes no argument, and the scanner resumes after the letter with the
directive closed. -/
theorem claim_C5 (ctx : Context) (B : Backend) (fmt : List Char) (nargs : Nat)
    (args : List Fmtarg) (guess fuel ts i iarg : Nat) (b : StackBuffer)
    (hletter : fmtAt fmt i ∈ convLetters)
    (hcond : iarg ≥ nargs ∨ i - ts ≥ argbuf_arraysize - 1 ∨
      (fmtAt fmt i = 'n' ∨ (fmtAt fmt i = 'q' ∧ ctx.Escape_q.isNone) ∨
       (fmtAt fmt i = 'Q' ∧ ctx.Escape_Q.isNone))) :
    handleConv ctx B fmt nargs args guess fuel ts i iarg b =
      some (addRange fmt ts i b, iarg) ∧
    (addRange fmt ts i b).data =
      b.data ++ (List.range' ts (i + 1 - ts)).map (fmtAt fmt) ∧
    mainLoop ctx B fmt nargs args guess (fuel + 1)
        { buf := b, i := i, tokenstart := some ts, iarg := iarg } =
      mainLoop ctx B fmt nargs args guess fuel
        { buf := addRange fmt ts i b, i := i + 1, tokenstart := none, iarg := iarg } := by
  have hnul : fmtAt fmt i ≠ nulChar := by
    intro hc
    rw [hc] at hletter
    exact absurd hletter (by decide)
  have hhandle : handleConv ctx B fmt nargs args guess fuel ts i iarg b =
      some (addRange fmt ts i b, iarg) := by
    unfold handleConv
    rw [if_pos hcond]
  refine ⟨hhandle, addRangeAux_data fmt (i + 1 - ts) ts b, ?_⟩
  rw [mainLoop]
  simp only [hhandle, if_neg hnul, if_pos hletter]

/-- Witness for C5: the always-disallowed letter `n` at directive "%n". -/
theorem claim_C5_witness :
    fmtAt ("%n".toList) 1 ∈ convLetters ∧
    (handleConv ctx0 B0 ("%n".toList) 1 [Fmtarg.TI32 5] 64 7 0 1 0 (StackBuffer.mk0 256) =
      some (addRange ("%n".toList) 0 1 (StackBuffer.mk0 256), 0) ∧
    (addRange ("%n".toList) 0 1 (StackBuffer.mk0 256)).data =
      (StackBuffer.mk0 256).data ++ (List.range' 0 (1 + 1 - 0)).map (fmtAt ("%n".toList)) ∧
    mainLoop ctx0 B0 ("%n".toList) 1 [Fmtarg.TI32 5] 64 (7 + 1)
        { buf := StackBuffer.mk0 256, i := 1, tokenstart := some 0, iarg := 0 } =
      mainLoop ctx0 B0 ("%n".toList) 1 [Fmtarg.TI32 5] 64 7
        { buf := addRange ("%n".toList) 0 1 (StackBuffer.mk0 256), i := 1 + 1,
          tokenstart := none, iarg := 0 }) :=
  ⟨by decide,
   claim_C5 ctx0 B0 ("%n".toList) 1 [Fmtarg.TI32 5] 64 7 0 1 0 (StackBuffer.mk0 256)
     (by decide) (Or.inr (Or.inr (Or.inl (by decide))))⟩

/-- C7: `Reserve(bytes)` with `Pos + bytes > Capacity` grows the capacity
to `max(Capacity * 2, Pos + bytes)`, keeps the first `Pos` bytes (the
meaningful content) unchanged, releases the old block exactly when it was
heap-owned, and marks the buffer owned; with `Pos + bytes ≤ Capacity` it
changes nothing. -/
theorem claim_C7 (b : StackBuffer) (bytes : Nat) :
    (b.Pos + bytes > b.Capacity →
      (b.Reserve bytes).Capacity = max (b.Capacity * 2) (b.Pos + bytes) ∧
      (b.Reserve bytes).data = b.data ∧
      (b.Reserve bytes).Pos = b.Pos ∧
      (b.Reserve bytes).OwnBuffer = true ∧
      (reserveCore b bytes).2 = b.OwnBuffer) ∧
    (b.Pos + bytes ≤ b.Capacity →
      b.Reserve bytes = b ∧ (reserveCore b bytes).2 = false) := by
  constructor
  · intro h
    unfold StackBuffer.Reserve reserveCore
    rw [if_pos h]
    refine ⟨?_, rfl, rfl, rfl, rfl⟩
    simp only
    rw [Nat.max_def]
    by_cases hlt : b.Capacity * 2 < b.Pos + bytes
    · rw [if_pos hlt, if_pos (le_of_lt hlt)]
    · rw [if_neg hlt]
      by_cases hle : b.Capacity * 2 ≤ b.Pos + bytes
      · have heq : b.Capacity * 2 = b.Pos + bytes := by omega
        rw [if_pos hle, heq]
      · rw [if_neg hle]
  · intro h
    unfold StackBuffer.Reserve reserveCore
    rw [if_neg (by omega)]
    exact ⟨rfl, rfl⟩

/-- Witness for C7 exercising both branches. -/
theorem claim_C7_witness :
    ((⟨['a', 'b'], 2, 2, false⟩ : StackBuffer).Pos + 3 > 2 ∧
      ((⟨['a', 'b'], 2, 2, false⟩ : StackBuffer).Reserve 3).Capacity = max (2 * 2) (2 + 3) ∧
      ((⟨['a', 'b'], 2, 2, false⟩ : StackBuffer).Reserve 3).data = ['a', 'b'] ∧
      ((⟨['a', 'b'], 2, 2, false⟩ : StackBuffer).Reserve 3).Pos = 2 ∧
      ((⟨['a', 'b'], 2, 2, false⟩ : StackBuffer).Reserve 3).OwnBuffer = true ∧
      (reserveCore (⟨['a', 'b'], 2, 2, false⟩ : StackBuffer) 3).2 = false) ∧
    ((⟨['a'], 1, 4, true⟩ : StackBuffer).Pos + 2 ≤ 4 ∧
      (⟨['a'], 1, 4, true⟩ : StackBuffer).Reserve 2 = ⟨['a'], 1, 4, true⟩ ∧
      (reserveCore (⟨['a'], 1, 4, true⟩ : StackBuffer) 2).2 = false) := by
  have h1 := (claim_C7 (⟨['a', 'b'], 2, 2, false⟩ : StackBuffer) 3).1 (by decide)
  have h2 := (claim_C7 (⟨['a'], 1, 4, true⟩ : StackBuffer) 2).2 (by decide)
  exact ⟨⟨by decide, h1.1, h1.2.1, h1.2.2.1, h1.2.2.2.1, h1.2.2.2.2⟩,
    ⟨by decide, h2.1, h2.2⟩⟩



/-- C6: formatting any supported argument with the generic `v` directive
makes exactly the same formatting call — hence produces the same output
bytes and return value — as its tag's natural specific letter (`d` for the
signed integer tags, `u` for the unsigned ones, `g` for `Double`, `s` for
`CString`, `p` for `Pointer`; for `Null`/`WideString` the letter is
ignored altogether); and a recognized explicit conversion letter whose
argument class conflicts with the argument's actual tag is overridden:
the resulting call is that of the tag's natural letter, not the
requested one. -/
theorem claim_C6 :
    (∀ (B : Backend) (argbuf : List Char) (sz : Nat) (arg : Fmtarg),
      fmt_output_with_snprintf B 'v' argbuf sz arg =
        fmt_output_with_snprintf B (naturalLetter arg) argbuf sz arg) ∧
    (∀ (B : Backend) (argbuf : List Char) (sz : Nat) (arg : Fmtarg) (L : Char),
      conflictsWith arg L →
      fmt_output_with_snprintf B L argbuf sz arg =
        fmt_output_with_snprintf B (naturalLetter arg) argbuf sz arg) := by
  constructor
  · intro B argbuf sz arg
    cases arg <;> rfl
  · intro B argbuf sz arg L hconf
    rcases hconf with ⟨hL, hnv, hnacc⟩
    cases arg <;>
      (simp only [acceptedLetters] at hnacc;
       fin_cases hL <;>
        first
          | rfl
          | exact absurd (by decide) hnv
          | exact absurd (by decide) hnacc)

/-- Witness for C6: the floating letter `f` conflicts with a `Signed32`
argument and is overridden by `d`. -/
theorem claim_C6_witness :
    conflictsWith (Fmtarg.TI32 5) 'f' ∧
    fmt_output_with_snprintf B0 'f' ['%'] 8 (Fmtarg.TI32 5) =
      fmt_output_with_snprintf B0 (naturalLetter (Fmtarg.TI32 5)) ['%'] 8 (Fmtarg.TI32 5) :=
  ⟨by decide, claim_C6.2 B0 ['%'] 8 (Fmtarg.TI32 5) 'f' (by decide)⟩



/-- The OutputBuffer invariant: the write cursor never passes the
capacity. -/
def bufInv (b : StackBuffer) : Prop := b.Pos ≤ b.Capacity

theorem reserve_room (b : StackBuffer) (n : Nat) (h : bufInv b) :
    bufInv (b.Reserve n) ∧ (b.Reserve n).Pos + n ≤ (b.Reserve n).Capacity := by
  unfold bufInv StackBuffer.Reserve reserveCore at *
  by_cases hc : b.Pos + n > b.Capacity
  · rw [if_pos hc]
    constructor <;> (simp only; split <;> omega)
  · rw [if_neg hc]
    constructor <;> (simp only; omega)

theorem addUninit_inv (b : StackBuffer) (n : Nat) (h : bufInv b) :
    bufInv (b.AddUninit n) := by
  have hr := reserve_room b n h
  unfold StackBuffer.AddUninit
  unfold bufInv at *
  simp only
  omega

theorem add_inv (b : StackBuffer) (c : Char) (h : bufInv b) : bufInv (b.Add c) := by
  have hr := reserve_room b 1 h
  unfold StackBuffer.Add
  unfold bufInv at *
  simp only
  omega

theorem move_inv (b : StackBuffer) (delta : Int) (hd : delta ≤ 0) (h : bufInv b) :
    bufInv (b.MoveCurrentPos delta) := by
  unfold bufInv StackBuffer.MoveCurrentPos at *
  simp only
  omega

theorem writeAt_inv (b : StackBuffer) (off : Nat) (bytes : List Char) (h : bufInv b) :
    bufInv (writeAt b off bytes) := h

theorem writeAt_pos (b : StackBuffer) (off : Nat) (bytes : List Char) :
    (writeAt b off bytes).Pos = b.Pos ∧ (writeAt b off bytes).Capacity = b.Capacity :=
  ⟨rfl, rfl⟩

theorem litCopyAux_inv (fmt : List Char) :
    ∀ (gas i : Nat) (b : StackBuffer), bufInv b → gas ≤ b.Capacity - b.Pos →
      bufInv (litCopyAux fmt gas i b).1 := by
  intro gas
  induction gas with
  | zero => intro i b h _; exact h
  | succ gas ih =>
    intro i b h hgas
    rw [litCopyAux]
    by_cases hc : fmtAt fmt i ≠ '%' ∧ fmtAt fmt i ≠ nulChar
    · rw [if_pos hc]
      have hlt : b.Pos < b.Capacity := by
        unfold bufInv at h
        omega
      exact ih (i + 1) _ (by unfold bufInv at *; simp only; omega)
        (by simp only; omega)
    · rw [if_neg hc]
      exact h

theorem litCopy_inv (fmt : List Char) (i : Nat) (b : StackBuffer) (h : bufInv b) :
    bufInv (litCopy fmt i (i + b.RemainingSpace) b).1 := by
  unfold litCopy StackBuffer.RemainingSpace
  exact litCopyAux_inv fmt _ i b h (by omega)

theorem retryLoop_inv (w : Nat → Int × List Char) :
    ∀ (fuel : Nat) (b : StackBuffer) (sz : Nat) (b' : StackBuffer), bufInv b →
      retryLoop w fuel b sz = some b' → bufInv b' := by
  intro fuel
  induction fuel with
  | zero => intro b sz b' _ hc; exact absurd hc (by simp [retryLoop])
  | succ fuel ih =>
    intro b sz b' h hrun
    rw [retryLoop] at hrun
    have h1 : bufInv (b.AddUninit sz) := addUninit_inv b sz h
    have h2 : bufInv (writeAt (b.AddUninit sz) b.Pos (w sz).2) := h1
    by_cases hsucc : (w sz).1 ≥ 0 ∧ (w sz).1 < (sz : Int)
    · rw [if_pos hsucc] at hrun
      have := move_inv (writeAt (b.AddUninit sz) b.Pos (w sz).2)
        ((w sz).1 - (sz : Int)) (by omega) h2
      rw [Option.some_inj] at hrun
      rw [← hrun]
      exact this
    · rw [if_neg hsucc] at hrun
      by_cases hcap : sz ≥ MaxOutputSize
      · rw [if_pos hcap, Option.some_inj] at hrun
        rw [← hrun]
        exact h2
      · rw [if_neg hcap] at hrun
        exact ih _ _ _ (move_inv _ (-(sz : Int)) (by omega) h2) hrun

theorem addRangeAux_inv (fmt : List Char) :
    ∀ (gas j : Nat) (b : StackBuffer), bufInv b → bufInv (addRangeAux fmt gas j b) := by
  intro gas
  induction gas with
  | zero => intro j b h; exact h
  | succ gas ih => intro j b h; exact ih (j + 1) _ (add_inv b _ h)

theorem handleConv_inv (ctx : Context) (B : Backend) (fmt : List Char) (nargs : Nat)
    (args : List Fmtarg) (guess fuel ts i iarg : Nat) (b : StackBuffer)
    (r : StackBuffer × Nat) (h : bufInv b)
    (hrun : handleConv ctx B fmt nargs args guess fuel ts i iarg b = some r) :
    bufInv r.1 := by
  unfold handleConv at hrun
  by_cases hc : iarg ≥ nargs ∨ i - ts ≥ argbuf_arraysize - 1 ∨
      (fmtAt fmt i = 'n' ∨ (fmtAt fmt i = 'q' ∧ ctx.Escape_q.isNone) ∨
       (fmtAt fmt i = 'Q' ∧ ctx.Escape_Q.isNone))
  · rw [if_pos hc, Option.some_inj] at hrun
    rw [← hrun]
    exact addRangeAux_inv fmt _ _ b h
  · rw [if_neg hc] at hrun
    cases hrl : retryLoop (convWriter ctx B fmt args ts i iarg) fuel b guess with
    | none =>
      rw [hrl] at hrun
      exact absurd hrun (by simp)
    | some b2 =>
      rw [hrl] at hrun
      simp only [Option.some.injEq] at hrun
      rw [← hrun]
      exact retryLoop_inv _ fuel b guess b2 h hrl


theorem mainLoop_inv (ctx : Context) (B : Backend) (fmt : List Char) (nargs : Nat)
    (args : List Fmtarg) (guess : Nat) :
    ∀ (fuel : Nat) (s : FmtState) (b' : StackBuffer), bufInv s.buf →
      mainLoop ctx B fmt nargs args guess fuel s = some b' → bufInv b' := by
  intro fuel
  induction fuel with
  | zero => intro s b' _ hc; exact absurd hc (by simp [mainLoop])
  | succ fuel ih =>
    intro s b' h hrun
    obtain ⟨b, i, ts, ia⟩ := s
    rw [mainLoop] at hrun
    dsimp only at hrun
    dsimp only at h
    by_cases hnul : fmtAt fmt i = nulChar
    · rw [if_pos hnul, Option.some_inj] at hrun
      rw [← hrun]
      exact h
    · rw [if_neg hnul] at hrun
      cases ts with
      | some tsv =>
        dsimp only at hrun
        by_cases hlet : fmtAt fmt i ∈ convLetters
        · rw [if_pos hlet] at hrun
          cases hh : handleConv ctx B fmt nargs args guess fuel tsv i ia b with
          | none =>
            rw [hh] at hrun
            exact absurd hrun (by simp)
          | some r =>
            rw [hh] at hrun
            exact ih _ _ (handleConv_inv ctx B fmt nargs args guess fuel tsv i ia b r h hh)
              hrun
        · rw [if_neg hlet] at hrun
          by_cases hpct : fmtAt fmt i = '%'
          · rw [if_pos hpct] at hrun
            exact ih _ _ (add_inv b '%' h) hrun
          · rw [if_neg hpct] at hrun
            exact ih _ _ h hrun
      | none =>
        dsimp only at hrun
        have hlc : bufInv (litCopy fmt i (i + b.RemainingSpace) b).1 := litCopy_inv fmt i b h
        by_cases hp : fmtAt fmt (litCopy fmt i (i + b.RemainingSpace) b).2 = '%'
        · rw [if_pos hp] at hrun
          exact ih _ _ hlc hrun
        · rw [if_neg hp] at hrun
          by_cases hz : fmtAt fmt (litCopy fmt i (i + b.RemainingSpace) b).2 = nulChar
          · rw [if_pos hz, Option.some_inj] at hrun
            rw [← hrun]
            exact hlc
          · rw [if_neg hz] at hrun
            exact ih _ _ ((reserve_room _ 1 hlc).1) hrun

/-- C8: the OutputBuffer invariant `Pos ≤ Capacity` holds after every
operation: it is established by construction, preserved by `Reserve`,
`AddUninitialized`, `Add`, and `MoveCurrentPos` as the engine uses it
(non-positive delta), by the literal-copy scanning loop bounded by
`RemainingSpace`, by the directive retry loop, and by every run of the
scanner itself, for every format string and argument pack — including
arbitrarily long inputs whose runs force repeated growth — up to and
including the final null-terminator append. -/
theorem claim_C8 :
    (∀ staticbuf_size : Nat, bufInv (StackBuffer.mk0 staticbuf_size)) ∧
    (∀ (b : StackBuffer) (n : Nat), bufInv b → bufInv (b.Reserve n)) ∧
    (∀ (b : StackBuffer) (n : Nat), bufInv b → bufInv (b.AddUninit n)) ∧
    (∀ (b : StackBuffer) (c : Char), bufInv b → bufInv (b.Add c)) ∧
    (∀ (b : StackBuffer) (delta : Int), delta ≤ 0 → bufInv b →
      bufInv (b.MoveCurrentPos delta)) ∧
    (∀ (fmt : List Char) (i : Nat) (b : StackBuffer), bufInv b →
      bufInv (litCopy fmt i (i + b.RemainingSpace) b).1) ∧
    (∀ (w : Nat → Int × List Char) (fuel : Nat) (b : StackBuffer) (sz : Nat)
      (b' : StackBuffer), bufInv b → retryLoop w fuel b sz = some b' → bufInv b') ∧
    (∀ (ctx : Context) (B : Backend) (fmt : List Char) (nargs : Nat) (args : List Fmtarg)
      (guess fuel : Nat) (s : FmtState) (b' : StackBuffer), bufInv s.buf →
      mainLoop ctx B fmt nargs args guess fuel s = some b' →
      bufInv b' ∧ bufInv (b'.Add nulChar)) :=
  ⟨fun sbs => Nat.zero_le sbs,
   fun b n h => (reserve_room b n h).1,
   addUninit_inv,
   add_inv,
   move_inv,
   litCopy_inv,
   retryLoop_inv,
   fun ctx B fmt nargs args guess fuel s b' h hrun =>
     ⟨mainLoop_inv ctx B fmt nargs args guess fuel s b' h hrun,
      add_inv b' nulChar (mainLoop_inv ctx B fmt nargs args guess fuel s b' h hrun)⟩⟩

/-- Witness for C8: a growth-forcing run — 30 literal characters through a
4-byte initial buffer — ends with the invariant intact. -/
theorem claim_C8_witness :
    bufInv ((⟨[], 0, 4, false⟩ : StackBuffer)) ∧
    (∃ b' : StackBuffer,
      mainLoop ctx0 B0 ("abcdefghijklmnopqrstuvwxyz0123".toList) 1 [Fmtarg.TI32 9] 1 40
        { buf := ⟨[], 0, 4, false⟩, i := 0, tokenstart := none, iarg := 0 } = some b' ∧
      bufInv b' ∧ bufInv (b'.Add nulChar)) := by
  refine ⟨Nat.zero_le 4, ⟨⟨"abcdefghijklmnopqrstuvwxyz0123".toList, 30, 32, true⟩, ?_, ?_⟩⟩
  · rfl
  · exact claim_C8.2.2.2.2.2.2.2 ctx0 B0 ("abcdefghijklmnopqrstuvwxyz0123".toList) 1
      [Fmtarg.TI32 9] 1 40 { buf := ⟨[], 0, 4, false⟩, i := 0, tokenstart := none, iarg := 0 }
      ⟨"abcdefghijklmnopqrstuvwxyz0123".toList, 30, 32, true⟩ (Nat.zero_le 4) rfl

theorem fmtAt_append_left (l l' : List Char) (j : Nat) (hj : j < l.length) :
    fmtAt (l ++ l') j = fmtAt l j := by
  unfold fmtAt
  rw [List.getD_eq_getElem?_getD, List.getD_eq_getElem?_getD, List.getElem?_append_left hj]

theorem fmtAt_append_right (l l' : List Char) (j : Nat) (hj : l.length ≤ j) :
    fmtAt (l ++ l') j = fmtAt l' (j - l.length) := by
  unfold fmtAt
  rw [List.getD_eq_getElem?_getD, List.getD_eq_getElem?_getD, List.getElem?_append_right hj]

theorem fmtAt_mem (l : List Char) (j : Nat) (h : j < l.length) : fmtAt l j ∈ l := by
  unfold fmtAt
  rw [List.getD_eq_getElem l nulChar h]
  exact List.getElem_mem h

theorem reserve_pos (b : StackBuffer) (n : Nat) : (b.Reserve n).Pos = b.Pos := by
  unfold StackBuffer.Reserve reserveCore
  by_cases h : b.Pos + n > b.Capacity
  · rw [if_pos h]
  · rw [if_neg h]

theorem add_pos (b : StackBuffer) (c : Char) : (b.Add c).Pos = b.Pos + 1 := by
  unfold StackBuffer.Add
  simp only [reserve_pos]

theorem take_add_drop (l : List Char) (m n : Nat) :
    l.take m ++ (l.drop m).take n = l.take (m + n) := by
  rw [List.take_drop]
  have h1 : l.take m = (l.take (m + n)).take m := by
    rw [List.take_take]
    congr 1
    omega
  rw [h1, List.take_append_drop]

theorem litCopyAux_lit (lit junk : List Char)
    (hlit : ∀ c ∈ lit, c ≠ '%' ∧ c ≠ nulChar) :
    ∀ (gas i : Nat) (b : StackBuffer), i ≤ lit.length →
      litCopyAux (lit ++ '%' :: junk) gas i b =
        if i + gas ≤ lit.length then
          ({ b with Pos := b.Pos + gas, data := b.data ++ (lit.drop i).take gas }, i + gas)
        else
          ({ b with Pos := b.Pos + (lit.length - i), data := b.data ++ lit.drop i },
            lit.length) := by
  intro gas
  induction gas with
  | zero =>
    intro i b hi
    rw [litCopyAux, if_pos (by omega)]
    cases b
    simp
  | succ gas ih =>
    intro i b hi
    rw [litCopyAux]
    by_cases hiL : i < lit.length
    · have hchar : fmtAt (lit ++ '%' :: junk) i = fmtAt lit i := fmtAt_append_left _ _ _ hiL
      have hcc := hlit _ (fmtAt_mem lit i hiL)
      have hdrop : lit.drop i = fmtAt lit i :: lit.drop (i + 1) := by
        unfold fmtAt
        rw [List.getD_eq_getElem lit nulChar hiL]
        exact List.drop_eq_getElem_cons hiL
      rw [if_pos (by rw [hchar]; exact ⟨hcc.1, hcc.2⟩)]
      rw [ih (i + 1) _ (by omega)]
      by_cases hle : i + 1 + gas ≤ lit.length
      · rw [if_pos hle, if_pos (by omega)]
        rw [hchar, hdrop]
        simp only [List.take_succ_cons, Prod.mk.injEq, StackBuffer.mk.injEq]
        refine ⟨⟨?_, by omega, trivial, trivial⟩, by omega⟩
        simp
      · rw [if_neg hle, if_neg (by omega)]
        rw [hchar, hdrop]
        simp only [Prod.mk.injEq, StackBuffer.mk.injEq]
        refine ⟨⟨?_, by omega, trivial, trivial⟩, trivial⟩
        simp
    · have hieq : i = lit.length := by omega
      have hchar : fmtAt (lit ++ '%' :: junk) i = '%' := by
        subst hieq
        rw [fmtAt_append_right _ _ _ le_rfl, Nat.sub_self]
        rfl
      rw [if_neg (by rw [hchar]; simp)]
      rw [if_neg (by omega)]
      subst hieq
      cases b
      simp

theorem mainLoop_scan (ctx : Context) (B : Backend) (lit junk : List Char) (nargs : Nat)
    (args : List Fmtarg) (guess : Nat)
    (hlit : ∀ c ∈ lit, c ≠ '%' ∧ c ≠ nulChar)
    (hjunk : ∀ c ∈ junk, c ∉ convLetters ∧ c ≠ '%' ∧ c ≠ nulChar) :
    ∀ (fuel : Nat), ∀ (i ia : Nat) (b : StackBuffer),
      b.data = lit.take i → b.Pos = i → bufInv b → i ≤ lit.length →
      2 * (lit.length - i) + (if b.Capacity ≤ i then 1 else 0) + junk.length + 3 ≤ fuel →
      ∃ b', mainLoop ctx B (lit ++ '%' :: junk) nargs args guess fuel
          { buf := b, i := i, tokenstart := none, iarg := ia } = some b' ∧
        b'.data = lit ∧ b'.Pos = lit.length := by
  intro fuel
  induction fuel using Nat.strong_induction_on with
  | _ fuel ih =>
    intro i ia b hdata hpos hinv hiL hfuel
    obtain ⟨f, rfl⟩ : ∃ f, fuel = f + 1 := ⟨fuel - 1, by omega⟩
    have hL : fmtAt (lit ++ '%' :: junk) lit.length = '%' := by
      rw [fmtAt_append_right _ _ _ le_rfl, Nat.sub_self]
      rfl
    have hlts : ∀ j, j < lit.length →
        fmtAt (lit ++ '%' :: junk) j ≠ '%' ∧ fmtAt (lit ++ '%' :: junk) j ≠ nulChar := by
      intro j hj
      rw [fmtAt_append_left _ _ _ hj]
      exact hlit _ (fmtAt_mem lit j hj)
    have hne : fmtAt (lit ++ '%' :: junk) i ≠ nulChar := by
      by_cases hi : i < lit.length
      · exact (hlts i hi).2
      · have hieq : i = lit.length := by omega
        rw [hieq, hL]
        decide
    have hicap : i ≤ b.Capacity := by
      unfold bufInv at hinv
      omega
    have habs : f ≥ junk.length + 2 → ∀ b1 : StackBuffer,
        mainLoop ctx B (lit ++ '%' :: junk) nargs args guess f
          { buf := b1, i := lit.length + 1, tokenstart := some lit.length, iarg := ia } =
          some b1 := by
      intro hf b1
      obtain ⟨f1, rfl⟩ : ∃ f1, f = f1 + 1 := ⟨f - 1, by omega⟩
      apply mainLoop_absorb
      · intro j hj
        obtain ⟨k, rfl⟩ : ∃ k, j = lit.length + 1 + k := ⟨j - (lit.length + 1), by omega⟩
        have hjk : fmtAt (lit ++ '%' :: junk) (lit.length + 1 + k) = fmtAt junk k := by
          rw [fmtAt_append_right _ _ _ (by omega)]
          have hsub : lit.length + 1 + k - lit.length = k + 1 := by omega
          rw [hsub]
          rfl
        rw [hjk]
        by_cases hk : k < junk.length
        · have hm := hjunk _ (fmtAt_mem junk k hk)
          exact ⟨hm.1, hm.2.1⟩
        · rw [fmtAt_past_end junk k (by omega)]
          exact ⟨by decide, by decide⟩
      · simp only [List.length_append, List.length_cons]
        omega
    rw [mainLoop, if_neg hne]
    dsimp only
    have hgas : i + b.RemainingSpace - i = b.Capacity - i := by
      unfold StackBuffer.RemainingSpace
      omega
    have hlc0 : litCopy (lit ++ '%' :: junk) i (i + b.RemainingSpace) b =
        litCopyAux (lit ++ '%' :: junk) (b.Capacity - i) i b := by
      unfold litCopy
      rw [hgas]
    rw [hlc0, litCopyAux_lit lit junk hlit (b.Capacity - i) i b hiL]
    by_cases hcL : b.Capacity < lit.length
    · rw [if_pos (show i + (b.Capacity - i) ≤ lit.length by omega)]
      dsimp only
      have hieq : i + (b.Capacity - i) = b.Capacity := by omega
      rw [hieq]
      have hc1 := hlts b.Capacity hcL
      rw [if_neg hc1.1, if_neg hc1.2]
      have hres := reserve_room ({ b with Pos := b.Pos + (b.Capacity - i), data := b.data ++ (lit.drop i).take (b.Capacity - i) }) 1 (by unfold bufInv; dsimp only; omega)
      refine ih f (by omega) b.Capacity ia _ ?_ ?_ ?_ (by omega) ?_
      · rw [reserve_data]
        dsimp only
        rw [hdata, take_add_drop, hieq]
      · rw [reserve_pos]
        dsimp only
        omega
      · exact hres.1
      · have hcap2 := hres.2
        rw [reserve_pos] at hcap2
        dsimp only at hcap2
        rw [if_neg (by omega)]
        by_cases hci : b.Capacity ≤ i
        · rw [if_pos hci] at hfuel
          omega
        · rw [if_neg hci] at hfuel
          omega
    · by_cases hceq : b.Capacity ≤ lit.length
      · have hcapL : b.Capacity = lit.length := by omega
        rw [if_pos (show i + (b.Capacity - i) ≤ lit.length by omega)]
        dsimp only
        have h2 : i + (b.Capacity - i) = lit.length := by omega
        rw [h2, if_pos hL]
        have hd1 : ({ b with Pos := b.Pos + (b.Capacity - i), data := b.data ++ (lit.drop i).take (b.Capacity - i) } : StackBuffer).data = lit := by
          dsimp only
          rw [hdata, take_add_drop, h2, List.take_length]
        have hp1 : ({ b with Pos := b.Pos + (b.Capacity - i), data := b.data ++ (lit.drop i).take (b.Capacity - i) } : StackBuffer).Pos = lit.length := by
          dsimp only
          omega
        refine ⟨_, ?_, hd1, hp1⟩
        exact habs (by omega) _
      · rw [if_neg (show ¬ (i + (b.Capacity - i) ≤ lit.length) by omega)]
        dsimp only
        rw [if_pos hL]
        have hd1 : ({ b with Pos := b.Pos + (lit.length - i), data := b.data ++ lit.drop i } : StackBuffer).data = lit := by
          dsimp only
          rw [hdata, List.take_append_drop]
        have hp1 : ({ b with Pos := b.Pos + (lit.length - i), data := b.data ++ lit.drop i } : StackBuffer).Pos = lit.length := by
          dsimp only
          omega
        refine ⟨_, ?_, hd1, hp1⟩
        exact habs (by omega) _

/-- C4 (amended): a character outside the closed letter set never
terminates a directive — the scanner absorbs it, writing nothing and
consuming no argument, and stays inside the directive — and, in a call
with at least one argument (a zero-argument call instead copies the
format string verbatim), a directive still open when the format string
ends is dropped from the output: its raw characters from the `%` onward
are not copied, while every literal character before the `%` is kept; no
error is raised. -/
theorem claim_C4 (ctx : Context) (B : Backend) (args : List Fmtarg)
    (nargs staticbuf_size guess : Nat) (lit junk : List Char)
    (hlit : ∀ c ∈ lit, c ≠ '%' ∧ c ≠ nulChar)
    (hjunk : ∀ c ∈ junk, c ∉ convLetters ∧ c ≠ '%' ∧ c ≠ nulChar)
    (hn : nargs ≠ 0) :
    (∀ (fuel i ts ia : Nat) (b : StackBuffer) (fmt : List Char),
      fmtAt fmt i ∉ convLetters → fmtAt fmt i ≠ '%' → fmtAt fmt i ≠ nulChar →
      mainLoop ctx B fmt nargs args guess (fuel + 1)
          { buf := b, i := i, tokenstart := some ts, iarg := ia } =
        mainLoop ctx B fmt nargs args guess fuel
          { buf := b, i := i + 1, tokenstart := some ts, iarg := ia }) ∧
    (∃ r, fmt_core ctx B (lit ++ '%' :: junk) nargs args staticbuf_size
        (2 * lit.length + junk.length + 4) = some r ∧
      r.str = lit ++ [nulChar] ∧ r.Len = lit.length) := by
  constructor
  · intro fuel i ts ia b fmt h1 h2 h3
    rw [mainLoop, if_neg h3]
    dsimp only
    rw [if_neg h1, if_neg h2]
  · obtain ⟨b', heq, hdata, hposL⟩ := mainLoop_scan ctx B lit junk nargs args
      (staticbuf_size / 4) hlit hjunk (2 * lit.length + junk.length + 4) 0 0
      (StackBuffer.mk0 staticbuf_size) rfl rfl (Nat.zero_le _) (Nat.zero_le _)
      (by simp only [StackBuffer.mk0]; split <;> omega)
    simp only [fmt_core]
    rw [if_neg hn]
    simp only [heq]
    refine ⟨_, rfl, ?_, ?_⟩
    · dsimp only
      rw [add_data, hdata]
    · dsimp only
      rw [add_pos, hposL]
      omega

/-- Witness for the amended C4 on "a%z" with one argument: the literal
prefix "a" is kept and the open directive "%z" is dropped. -/
theorem claim_C4_witness :
    (∀ c ∈ (['a'] : List Char), c ≠ '%' ∧ c ≠ nulChar) ∧
    (∀ c ∈ (['z'] : List Char), c ∉ convLetters ∧ c ≠ '%' ∧ c ≠ nulChar) ∧
    (1 : Nat) ≠ 0 ∧
    (∃ r, fmt_core ctx0 B0 (['a'] ++ '%' :: ['z']) 1 [Fmtarg.TI32 5] 256
        (2 * List.length ['a'] + List.length ['z'] + 4) = some r ∧
      r.str = ['a'] ++ [nulChar] ∧ r.Len = List.length ['a']) :=
  ⟨by decide, by decide, by decide,
   (claim_C4 ctx0 B0 [Fmtarg.TI32 5] 1 256 0 ['a'] ['z'] (by decide) (by decide)
     (by decide)).2⟩



theorem retryLoop_zero (w : Nat → Int × List Char) :
    ∀ (fuel : Nat) (b : StackBuffer), retryLoop w fuel b 0 = none := by
  intro fuel
  induction fuel with
  | zero => intro b; rfl
  | succ fuel ih =>
    intro b
    rw [retryLoop]
    rw [if_neg (show ¬ ((w 0).1 ≥ 0 ∧ (w 0).1 < ((0 : Nat) : Int)) by
      intro hc
      have h1 := hc.1
      have h2 := hc.2
      omega)]
    rw [if_neg (show ¬ ((0 : Nat) ≥ MaxOutputSize) by decide)]
    have h02 : 0 * 2 = 0 := rfl
    rw [h02]
    exact ih _

/-- C9 (code bug): the backend-delegation retry loop cannot exit once the
provisional size is zero — success demands `0 ≤ written < 0`, doubling
keeps the size at zero, and the 1 MiB ceiling is never reached — and with
a caller buffer of one byte (`initial_sprintf_guessed_size = 1 >> 2 = 0`)
`fmt_core` on "%d" with one argument never returns, for any backend and
any amount of fuel. -/
theorem claim_C9 :
    (∀ (w : Nat → Int × List Char) (fuel : Nat) (b : StackBuffer),
      retryLoop w fuel b 0 = none) ∧
    (∀ (B : Backend) (fuel : Nat),
      fmt_core ctx0 B ("%d".toList) 1 [Fmtarg.TI32 5] 1 fuel = none) := by
  refine ⟨retryLoop_zero, ?_⟩
  intro B fuel
  have hml : ∀ (fl : Nat) (b : StackBuffer),
      mainLoop ctx0 B ("%d".toList) 1 [Fmtarg.TI32 5] 0 fl
        { buf := b, i := 0, tokenstart := none, iarg := 0 } = none := by
    intro fl b
    match fl with
    | 0 => rfl
    | fl + 1 =>
      rw [mainLoop]
      rw [if_neg (show ¬ fmtAt ("%d".toList) 0 = nulChar by decide)]
      dsimp only
      rw [litCopy_stop ("%d".toList) 0 (0 + StackBuffer.RemainingSpace b) b (Or.inl (by decide))]
      rw [if_pos (show fmtAt ("%d".toList) 0 = '%' by decide)]
      match fl with
      | 0 => rfl
      | fl + 1 =>
        rw [mainLoop]
        rw [if_neg (show ¬ fmtAt ("%d".toList) 1 = nulChar by decide)]
        dsimp only
        rw [if_pos (show fmtAt ("%d".toList) 1 ∈ convLetters by decide)]
        have hhc : handleConv ctx0 B ("%d".toList) 1 [Fmtarg.TI32 5] 0 fl 0 1 0 b = none := by
          unfold handleConv
          rw [if_neg (show ¬ ((0 : Nat) ≥ 1 ∨ 1 - 0 ≥ argbuf_arraysize - 1 ∨
            (fmtAt ("%d".toList) 1 = 'n' ∨
             (fmtAt ("%d".toList) 1 = 'q' ∧ ctx0.Escape_q.isNone) ∨
             (fmtAt ("%d".toList) 1 = 'Q' ∧ ctx0.Escape_Q.isNone))) by decide)]
          rw [retryLoop_zero]
        rw [hhc]
  simp only [fmt_core]
  rw [if_neg (show ¬ (1 : Nat) = 0 by decide)]
  have h14 : (1 : Nat) / 4 = 0 := rfl
  rw [h14, hml fuel (StackBuffer.mk0 1)]


end tsf
